import Mathlib

/-!
Shallow embedding of the action execution engine of this repository
(`src/app/lib/runtime/action-runner.ts` and the artifact registry part of
`src/app/components/workbench/SplitTerminal.tsx`).

The stateful, promise-chained `ActionRunner` class is embedded as a
transition system: the runner state carries the action store, the chain
bookkeeping (which executions have been appended / started / settled, the
at-most-one in-flight execution) and the scheduled "set status running"
microtasks that `addAction` attaches to the chain promise.  The sandboxed
environment (process exit codes, fallible `fs.mkdir` / `fs.writeFile`)
is an oracle structure `Env`; the virtual filesystem is an explicit value.
-/

namespace ActionRunner

/-- Association-list lookup, the embedding of reading one key of the
nanostores `MapStore` used for `this.actions`. -/
def lookupKey {α : Type} : List (String × α) → String → Option α
  | [], _ => none
  | (k, v) :: rest, id => if k = id then some v else lookupKey rest id

/-- Association-list single-key update, the embedding of
`store.setKey(id, value)`: replaces the value at `id`, appending when the
key is new. -/
def setKey {α : Type} : List (String × α) → String → α → List (String × α)
  | [], id, v => [(id, v)]
  | (k, w) :: rest, id, v =>
    if k = id then (k, v) :: rest else (k, w) :: setKey rest id v

/-- Does the first character list start with the second? -/
def startsWithChars : List Char → List Char → Bool
  | _, [] => true
  | [], _ :: _ => false
  | c :: cs, p :: ps => c == p && startsWithChars cs ps

/-- Does the first character list contain the second as a contiguous
sublist? -/
def containsChars : List Char → List Char → Bool
  | [], pat => startsWithChars [] pat
  | c :: cs, pat => startsWithChars (c :: cs) pat || containsChars cs pat

/-- JS `String.prototype.includes`, for the patterns the shell handler
tests (`'next dev'`, `'npm'`). -/
def includesStr (s pat : String) : Bool := containsChars s.data pat.data

/-- The file handler's trailing-slash strip, `folder.replace` of the
regex matching trailing slashes. -/
def stripTrailingSlashes (s : String) : String :=
  String.mk ((s.data.reverse.dropWhile (fun c => c == '/')).reverse)

/-- Split a character list on a separator character (the shape of
`String.split` on `'/'`). -/
def splitOnSlash : List Char → List (List Char)
  | [] => [[]]
  | c :: cs =>
    let r := splitOnSlash cs
    if c == '/' then [] :: r
    else
      match r with
      | [] => [[c]]
      | p :: ps => (c :: p) :: ps

/-- Join path segments back with `'/'`. -/
def joinWithSlash : List (List Char) → List Char
  | [] => []
  | [p] => p
  | p :: ps => p ++ '/' :: joinWithSlash ps

/-- Embedding of `nodePath.dirname`, for the POSIX-style paths the handlers build:
everything before the last separator; `"."` when there is none; `"/"`
for a file directly under the root. -/
def dirname (p : String) : String :=
  let parts := splitOnSlash p.data
  if parts.length ≤ 1 then "."
  else
    let d := joinWithSlash parts.dropLast
    if d.isEmpty then "/" else String.mk d

/-- The sandboxed environment (webcontainer) as an oracle: for each
command, whether the spawned process exits before the 5-second timeout and
with which exit code; for each path, whether `fs.mkdir` / `fs.writeFile`
reject. -/
structure Env where
  shellExitsBeforeTimeout : String → Bool
  shellExitCode : String → Nat
  mkdirFails : String → Bool
  writeFails : String → Bool

/-- The virtual filesystem state: directories created and files written. -/
structure FS where
  dirs : List String
  files : List (String × String)
deriving DecidableEq

def emptyFS : FS := ⟨[], []⟩

def fsMkdir (fs : FS) (d : String) : FS :=
  { fs with dirs := if d ∈ fs.dirs then fs.dirs else fs.dirs ++ [d] }

def fsWrite (fs : FS) (p c : String) : FS :=
  { fs with files := setKey fs.files p c }

/-- The timeout branch of the `Promise.race` in `#runShellAction`: after
5 seconds the race resolves to `0` only when the command matches the
long-running pattern (`'next dev'` or `'npm'`). -/
def longRunningTimeout (content : String) : Bool :=
  includesStr content "next dev" || includesStr content "npm"

/-- The exit code produced by the `Promise.race` of the real exit against
the 5-second timeout in `#runShellAction`: the real exit code when the
process exits first; `0` at the timeout for a long-running command;
otherwise the (eventual) real exit code, since the timeout promise never
resolves for other commands. -/
def racedExitCode (env : Env) (content : String) : Nat :=
  if env.shellExitsBeforeTimeout content then env.shellExitCode content
  else if longRunningTimeout content then 0
  else env.shellExitCode content

/-- Embedding of `#runShellAction`: throw on a nonzero raced exit code unless the
command contains `'next dev'`. -/
def runShellAction (env : Env) (content : String) : Except String Unit :=
  let exitCode := racedExitCode env content
  if exitCode != 0 && !(includesStr content "next dev") then
    Except.error ("Process failed with exit code " ++ toString exitCode)
  else Except.ok ()

/-- Embedding of `#runFileAction`: make the parent directory (failure logged and
swallowed), then write the file (failure logged and swallowed).  The
handler never throws, so its embedding returns only the filesystem. -/
def runFileAction (env : Env) (fs : FS) (filePath fileContent : String) : FS :=
  let folder := stripTrailingSlashes (dirname filePath)
  let fs1 :=
    if folder != "." && !env.mkdirFails folder then fsMkdir fs folder
    else fs
  if env.writeFails filePath then fs1 else fsWrite fs1 filePath fileContent

/-- One file of an import action's payload. -/
structure ImportFile where
  path : String
  content : String
deriving DecidableEq

/-- The per-file loop of `#importRepository`: mkdir the file's directory
(throwing on failure), write the file (throwing on failure), recurse.
Returns the filesystem reached together with the error of the first
failing operation, if any. -/
def importFiles (env : Env) (fs : FS) (folder : String) :
    List ImportFile → FS × Option String
  | [] => (fs, none)
  | f :: rest =>
    let filePath := folder ++ "/" ++ f.path
    let fileDir := dirname filePath
    if fileDir != "." && env.mkdirFails fileDir then
      (fs, some ("mkdir failed: " ++ fileDir))
    else
      let fs1 := if fileDir != "." then fsMkdir fs fileDir else fs
      if env.writeFails filePath then (fs1, some ("write failed: " ++ filePath))
      else importFiles env (fsWrite fs1 filePath f.content) folder rest

/-- The post-import command loop of `#importRepository`: spawn each
command in order, throwing on the first nonzero exit.  Also returns the
list of commands actually spawned, so that "remaining commands are not
executed" is expressible. -/
def runPostCommands (env : Env) : List String → Except String Unit × List String
  | [] => (Except.ok (), [])
  | c :: rest =>
    if env.shellExitCode c != 0 then
      (Except.error ("Post-import command failed: " ++ c), [c])
    else
      let r := runPostCommands env rest
      (r.1, c :: r.2)

/-- Embedding of `#importRepository`: mkdir the base folder (`targetPath || '.'`),
write every file through `importFiles`, then run the post-import commands.
Any failure propagates out of the handler. -/
def importRepository (env : Env) (fs : FS) (targetPath : String)
    (files : List ImportFile) (postImportCommands : List String) :
    Except String Unit × FS × List String :=
  let folder := if targetPath = "" then "." else targetPath
  if folder != "." && env.mkdirFails folder then
    (Except.error ("mkdir failed: " ++ folder), fs, [])
  else
    let fs0 := if folder != "." then fsMkdir fs folder else fs
    match importFiles env fs0 folder files with
    | (fs1, some e) => (Except.error e, fs1, [])
    | (fs1, none) =>
      let r := runPostCommands env postImportCommands
      (r.1, fs1, r.2)

/-- The action descriptor (`BoltAction`): a shell command, a file write,
or a repository import. -/
inductive BoltAction
  | shell (content : String)
  | file (filePath : String) (content : String)
  | importRepo (targetPath : String) (files : List ImportFile)
      (postImportCommands : List String)
deriving DecidableEq

/-- One entry of the action store (`ActionState` in the source): the
descriptor together with `status`, `executed`, and the state of the
record's `AbortController` (`abortRaised` = `abortSignal.aborted`; the
failure message of a failed action is carried by the status). -/
inductive ActionStatus
  | pending
  | running
  | complete
  | aborted
  | failed (error : String)
deriving DecidableEq

structure ActionState where
  action : BoltAction
  status : ActionStatus
  executed : Bool
  abortRaised : Bool
deriving DecidableEq

/-- Whole-runner state.  `actions` and `fs` are the observable store and
filesystem.  The remaining fields embed the promise chain
(`#currentExecutionPromise`): `appended` lists, in order, the action ids
whose execution `runAction` chained; `started`/`settled` record dispatch
and settlement of those executions; `inFlight` holds the (at most one)
execution currently between dispatch and settlement, with the descriptor
snapshot `#executeAction` read at entry; `pendingRunning` holds the
`status: running` updates `addAction` scheduled on the chain promise,
keyed by how many chained executions must settle before each fires. -/
structure RunnerState where
  actions : List (String × ActionState)
  fs : FS
  appended : List String
  started : List String
  settled : List String
  inFlight : Option (String × BoltAction)
  pendingRunning : List (Nat × String)
deriving DecidableEq

def initState : RunnerState := ⟨[], emptyFS, [], [], [], none, []⟩

/-- Embedding of `#updateAction` with a status payload: merge a status into the record at
`id` (every update site targets an id that is present in the store). -/
def updateStatus (m : List (String × ActionState)) (id : String)
    (st : ActionStatus) : List (String × ActionState) :=
  match lookupKey m id with
  | none => m
  | some r => setKey m id { r with status := st }

/-- The ids appended to the chain whose execution has not yet started. -/
def chainQueue (s : RunnerState) : List String := s.appended.drop s.started.length

/-- No scheduled `running` update is due: continuations attached to the
chain promise earlier (the `addAction`-scheduled updates) fire before an
execution chained later may start. -/
def noDueRunningUpdate (s : RunnerState) : Bool :=
  match s.pendingRunning with
  | [] => true
  | (k, _) :: _ => s.settled.length < k

/-- The events of the embedded runner: the three synchronous entry points
(`addAction`, `runAction`, the record's `abort` closure) and the three
asynchronous completions (a scheduled `running` update firing, a chained
execution being dispatched by the chain, and the in-flight handler
settling). -/
inductive Step
  | add (actionId : String) (action : BoltAction)
  | run (actionId : String) (action : BoltAction)
  | abortAction (actionId : String)
  | fireRunning
  | start
  | finish
deriving DecidableEq

/-- Dispatch to the per-type handler (`#executeAction`'s `switch`),
returning the handler's result and the filesystem it leaves behind. -/
def runHandler (env : Env) (fs : FS) : BoltAction → Except String Unit × FS
  | .shell content => (runShellAction env content, fs)
  | .file filePath fileContent => (Except.ok (), runFileAction env fs filePath fileContent)
  | .importRepo targetPath files postCmds =>
    let r := importRepository env fs targetPath files postCmds
    (r.1, r.2.1)

/-- One transition of the embedded runner. -/
def applyStep (env : Env) (s : RunnerState) : Step → RunnerState
  | .add actionId action =>
    match lookupKey s.actions actionId with
    | some _ => s
    | none =>
      { s with
        actions := setKey s.actions actionId
          { action := action, status := .pending, executed := false,
            abortRaised := false },
        pendingRunning := s.pendingRunning ++ [(s.appended.length, actionId)] }
  | .run actionId action =>
    match lookupKey s.actions actionId with
    | none => s
    | some r =>
      if r.executed then s
      else
        { s with
          actions := setKey s.actions actionId
            { r with action := action, executed := true },
          appended := s.appended ++ [actionId] }
  | .abortAction actionId =>
    match lookupKey s.actions actionId with
    | none => s
    | some r =>
      { s with
        actions := setKey s.actions actionId
          { r with abortRaised := true, status := .aborted } }
  | .fireRunning =>
    match s.pendingRunning with
    | [] => s
    | (k, actionId) :: rest =>
      if k ≤ s.settled.length then
        { s with
          actions := updateStatus s.actions actionId .running,
          pendingRunning := rest }
      else s
  | .start =>
    match s.inFlight with
    | some _ => s
    | none =>
      if noDueRunningUpdate s then
        match chainQueue s with
        | [] => s
        | actionId :: _ =>
          match lookupKey s.actions actionId with
          | none => s
          | some r =>
            { s with
              actions := updateStatus s.actions actionId .running,
              started := s.started ++ [actionId],
              inFlight := some (actionId, r.action) }
      else s
  | .finish =>
    match s.inFlight with
    | none => s
    | some (actionId, act) =>
      let r := runHandler env s.fs act
      let newStatus :=
        match r.1 with
        | Except.ok _ =>
          match lookupKey s.actions actionId with
          | some rec =>
            if rec.abortRaised then ActionStatus.aborted else ActionStatus.complete
          | none => ActionStatus.complete
        | Except.error e => ActionStatus.failed e
      { s with
        actions := updateStatus s.actions actionId newStatus,
        fs := r.2,
        settled := s.settled ++ [actionId],
        inFlight := none }

/-- Run a sequence of events from the fresh runner. -/
def runTrace (env : Env) (steps : List Step) : RunnerState :=
  steps.foldl (applyStep env) initState

/-- The status stored for an id. -/
def statusOf (s : RunnerState) (id : String) : Option ActionStatus :=
  (lookupKey s.actions id).map ActionState.status

/-- The promise `runAction` itself returns settles when its synchronous body
returns: it rejects only on the unknown-id `unreachable`, and otherwise
resolves at once (the body never awaits the execution chain). -/
def runActionResult (s : RunnerState) (id : String) : Except String Unit :=
  match lookupKey s.actions id with
  | none => Except.error ("Action " ++ id ++ " not found")
  | some _ => Except.ok ()

/-- A terminal status. -/
def isTerminal : ActionStatus → Bool
  | .complete => true
  | .aborted => true
  | .failed _ => true
  | _ => false

/-- Environment in which every spawned process exits promptly with code 1. -/
def envExitOne : Env := ⟨fun _ => true, fun _ => 1, fun _ => false, fun _ => false⟩

/-- Trace: one shell action `"npm test"` added, run, and executed. -/
def traceNpmTest : List Step :=
  [.add "a1" (.shell "npm test"), .run "a1" (.shell "npm test"),
   .fireRunning, .start, .finish]

/-- Environment in which every filesystem operation fails and every
process exits promptly with code 0. -/
def envAllFail : Env := ⟨fun _ => true, fun _ => 0, fun _ => true, fun _ => true⟩

/-- Trace: one plain file action added and run, dispatch included, its
handler not yet settled. -/
def traceFilePrefix : List Step :=
  [.add "f1" (.file "/home/project/src/a/b.txt" "hi"),
   .run "f1" (.file "/home/project/src/a/b.txt" "hi"), .fireRunning, .start]

/-- Does writing this import file succeed in `env` (its directory can be
made when needed, and the write itself succeeds)? -/
def importFileOk (env : Env) (folder : String) (f : ImportFile) : Bool :=
  let filePath := folder ++ "/" ++ f.path
  let fileDir := dirname filePath
  !(fileDir != "." && env.mkdirFails fileDir) && !env.writeFails filePath

/-- The filesystem effect of successfully importing one file. -/
def writeImportFile (folder : String) (fs : FS) (f : ImportFile) : FS :=
  let filePath := folder ++ "/" ++ f.path
  let fileDir := dirname filePath
  let fs1 := if fileDir != "." then fsMkdir fs fileDir else fs
  fsWrite fs1 filePath f.content

/-- The filesystem effect of successfully importing a list of files. -/
def writeImportFiles (folder : String) (fs : FS) (files : List ImportFile) : FS :=
  files.foldl (writeImportFile folder) fs

/-- The filesystem left behind when importing `bad` fails: unchanged when
its mkdir fails, the directory alone when the write fails. -/
def importFailState (env : Env) (folder : String) (fs : FS) (bad : ImportFile) : FS :=
  let filePath := folder ++ "/" ++ bad.path
  let fileDir := dirname filePath
  if fileDir != "." && env.mkdirFails fileDir then fs
  else if fileDir != "." then fsMkdir fs fileDir else fs

/-- The error thrown when importing `bad` fails. -/
def importFailMsg (env : Env) (folder : String) (bad : ImportFile) : String :=
  let filePath := folder ++ "/" ++ bad.path
  let fileDir := dirname filePath
  if fileDir != "." && env.mkdirFails fileDir then "mkdir failed: " ++ fileDir
  else "write failed: " ++ filePath

/-- Benign environment: processes exit promptly, with code 1 for the
command `"false"` and 0 otherwise; filesystem operations succeed. -/
def envOk : Env :=
  ⟨fun _ => true, fun c => if c = "false" then 1 else 0, fun _ => false, fun _ => false⟩

/-- Environment for the import scenarios: `mkdir` fails for the directory
`"proj/sub"`, the post-import command `"bad"` exits 1, everything else
succeeds. -/
def envImportFail : Env :=
  ⟨fun _ => true, fun c => if c = "bad" then 1 else 0,
   fun d => d = "proj/sub", fun _ => false⟩

/-- Trace: one shell action that completes normally. -/
def traceShellDone : List Step :=
  [.add "a1" (.shell "echo hi"), .run "a1" (.shell "echo hi"),
   .fireRunning, .start, .finish]

/-- Trace: a failing shell action `"a"` chained before a file action
`"b"`, both executed to settlement. -/
def traceTwoActions : List Step :=
  [.add "a" (.shell "false"), .run "a" (.shell "false"),
   .add "b" (.file "x.txt" "1"), .run "b" (.file "x.txt" "1"),
   .fireRunning, .start, .finish, .fireRunning, .start, .finish]

/-- The id of the execution currently in flight, as a list. -/
def inFlightList (s : RunnerState) : List String :=
  match s.inFlight with
  | none => []
  | some p => [p.1]

/-- Bookkeeping invariant of the execution chain: the started executions
are a prefix of the appended ones; the started ones are the settled ones
followed by the (at most one) in-flight one; no id is appended twice; and
every appended id has a record marked `executed`. -/
def ChainInv (s : RunnerState) : Prop :=
  (∃ rest, s.appended = s.started ++ rest) ∧
  s.started = s.settled ++ inFlightList s ∧
  s.appended.Nodup ∧
  ∀ id ∈ s.appended, ∃ r, lookupKey s.actions id = some r ∧ r.executed = true

/-- The single action id whose record a step may touch (`""` when the
step is a no-op with no target). -/
def stepTarget (s : RunnerState) : Step → String
  | .add actionId _ => actionId
  | .run actionId _ => actionId
  | .abortAction actionId => actionId
  | .fireRunning =>
    match s.pendingRunning with
    | [] => ""
    | (_, actionId) :: _ => actionId
  | .start =>
    match chainQueue s with
    | [] => ""
    | actionId :: _ => actionId
  | .finish =>
    match s.inFlight with
    | none => ""
    | some p => p.1

end ActionRunner

namespace Workbench

open ActionRunner

/-- One entry of the artifact registry (`SplitTerminal.tsx`): the
callback's `id`, the title, the closed flag, and the identity of the
`ActionRunner` instance created for it (`new ActionRunner(webcontainer)`
is embedded as drawing a fresh identity from a counter). -/
structure ArtifactState where
  id : String
  title : String
  closed : Bool
  runnerId : Nat
deriving DecidableEq

structure WorkbenchState where
  artifacts : List (String × ArtifactState)
  artifactIdList : List String
  nextRunnerId : Nat
deriving DecidableEq

def initWorkbench : WorkbenchState := ⟨[], [], 0⟩

/-- Embedding of `addArtifact`: no-op when the artifact is
already registered; otherwise push the message id onto `artifactIdList`
(when absent) and store a fresh record with a fresh runner. -/
def addArtifact (s : WorkbenchState) (messageId title aid : String) :
    WorkbenchState :=
  match lookupKey s.artifacts messageId with
  | some _ => s
  | none =>
    { artifacts := setKey s.artifacts messageId
        { id := aid, title := title, closed := false,
          runnerId := s.nextRunnerId },
      artifactIdList :=
        if messageId ∈ s.artifactIdList then s.artifactIdList
        else s.artifactIdList ++ [messageId],
      nextRunnerId := s.nextRunnerId + 1 }

end Workbench


namespace ActionRunner

theorem lookupKey_setKey_self {α : Type} (m : List (String × α)) (id : String) (v : α) :
    lookupKey (setKey m id v) id = some v := by
  induction m with
  | nil => simp [setKey, lookupKey]
  | cons hd tl ih =>
    obtain ⟨k, w⟩ := hd
    by_cases h : k = id
    · simp [setKey, lookupKey, h]
    · simp [setKey, lookupKey, h, ih]

theorem lookupKey_setKey_ne {α : Type} (m : List (String × α)) (id y : String) (v : α)
    (h : y ≠ id) : lookupKey (setKey m id v) y = lookupKey m y := by
  induction m with
  | nil =>
    simp only [setKey, lookupKey]
    rw [if_neg (fun hc => h hc.symm)]
  | cons hd tl ih =>
    obtain ⟨k, w⟩ := hd
    by_cases hk : k = id
    · subst hk
      simp only [setKey, if_pos rfl, lookupKey]
      rw [if_neg (fun hc => h hc.symm), if_neg (fun hc => h hc.symm)]
    · simp only [setKey, if_neg hk, lookupKey]
      by_cases hy : k = y <;> simp [hy, ih]

theorem lookupKey_updateStatus_self (m : List (String × ActionState)) (id : String)
    (st : ActionStatus) (r : ActionState) (h : lookupKey m id = some r) :
    lookupKey (updateStatus m id st) id = some { r with status := st } := by
  simp [updateStatus, h, lookupKey_setKey_self]

theorem lookupKey_updateStatus_ne (m : List (String × ActionState)) (x y : String)
    (st : ActionStatus) (h : y ≠ x) :
    lookupKey (updateStatus m x st) y = lookupKey m y := by
  unfold updateStatus
  cases hl : lookupKey m x with
  | none => rfl
  | some r => exact lookupKey_setKey_ne _ _ _ _ h

/-- Settling an execution whose handler threw records `failed` with the
thrown message. -/
theorem statusOf_finish_error (env : Env) (s : RunnerState) (id : String)
    (act : BoltAction) (e : String) (r : ActionState)
    (hin : s.inFlight = some (id, act))
    (hr : lookupKey s.actions id = some r)
    (he : (runHandler env s.fs act).1 = Except.error e) :
    statusOf (applyStep env s .finish) id = some (.failed e) := by
  simp only [applyStep]
  rw [hin]
  simp only [statusOf, he]
  rw [lookupKey_updateStatus_self _ _ _ r hr]
  rfl

/-- Settling an execution whose handler returned normally records
`aborted` when the cancellation signal is raised, `complete` otherwise. -/
theorem statusOf_finish_ok (env : Env) (s : RunnerState) (id : String)
    (act : BoltAction) (r : ActionState)
    (hin : s.inFlight = some (id, act))
    (hr : lookupKey s.actions id = some r)
    (he : (runHandler env s.fs act).1 = Except.ok ()) :
    statusOf (applyStep env s .finish) id
      = some (if r.abortRaised then .aborted else .complete) := by
  simp only [applyStep]
  rw [hin]
  simp only [statusOf, he, hr]
  cases hab : r.abortRaised
  · simp only [hab, if_neg Bool.false_ne_true]
    rw [lookupKey_updateStatus_self _ _ _ r hr]
    rfl
  · simp only [hab, if_pos rfl]
    rw [lookupKey_updateStatus_self _ _ _ r hr]
    rfl

end ActionRunner

namespace ActionRunner

/-- Claim C2 counterexample: the command `"npm test"` matches the
long-running pattern (it contains `"npm"`), its process exits with code 1
before the timeout, and yet the action's terminal status is `failed` with
the exit code embedded — the nonzero exit is not tolerated, contradicting
the claim that a long-running-pattern match makes the action complete
successfully. -/
theorem c2_counterexample :
    longRunningTimeout "npm test" = true ∧
    envExitOne.shellExitCode "npm test" = 1 ∧
    envExitOne.shellExitsBeforeTimeout "npm test" = true ∧
    statusOf (runTrace envExitOne traceNpmTest) "a1"
      = some (.failed "Process failed with exit code 1") := by
  refine ⟨by decide, rfl, rfl, by decide⟩

/-- Claim C2 (amended): when a shell action's process exits (before the
timeout) with a nonzero code, the terminal status is `failed` with the
exit code embedded in the error message, unless the command contains
`"next dev"`, in which case the nonzero exit is tolerated and the handler
succeeds.  A command that merely contains `"npm"` gets no such leniency:
the `"npm"` token only lets the 5-second timeout race resolve with a fake
exit code 0 when the process has not exited yet. -/
theorem c2_shell_nonzero_exit :
    (∀ (env : Env) (content : String),
      env.shellExitsBeforeTimeout content = true →
      env.shellExitCode content ≠ 0 →
      (includesStr content "next dev" = true →
        runShellAction env content = Except.ok ()) ∧
      (includesStr content "next dev" = false →
        runShellAction env content =
          Except.error
            ("Process failed with exit code " ++ toString (env.shellExitCode content)))) ∧
    (∀ (env : Env) (s : RunnerState) (id content e : String) (r : ActionState),
      s.inFlight = some (id, .shell content) →
      lookupKey s.actions id = some r →
      runShellAction env content = Except.error e →
      statusOf (applyStep env s .finish) id = some (.failed e)) := by
  constructor
  · intro env content h1 h2
    constructor
    · intro h3
      simp [runShellAction, racedExitCode, h1, h3]
    · intro h3
      simp [runShellAction, racedExitCode, h1, h3, h2]
  · intro env s id content e r hin hr he
    exact statusOf_finish_error env s id (.shell content) e r hin hr
      (by simpa [runHandler] using he)

/-- Witness for the amended C2: a plain failing command fails with the
code embedded; a `"next dev"` command with the same nonzero exit
succeeds; and the `"npm test"` execution of the counterexample trace ends
`failed` through the settlement rule. -/
theorem c2_shell_nonzero_exit_witness :
    runShellAction envExitOne "boom" =
      Except.error ("Process failed with exit code " ++ toString (envExitOne.shellExitCode "boom")) ∧
    runShellAction envExitOne "next dev" = Except.ok () ∧
    statusOf
      (applyStep envExitOne
        (runTrace envExitOne
          [.add "a1" (.shell "npm test"), .run "a1" (.shell "npm test"),
           .fireRunning, .start]) .finish) "a1"
      = some (.failed "Process failed with exit code 1") := by
  refine ⟨?_, ?_, ?_⟩
  · exact (c2_shell_nonzero_exit.1 envExitOne "boom" rfl (by decide)).2 (by decide)
  · exact (c2_shell_nonzero_exit.1 envExitOne "next dev" rfl (by decide)).1 (by decide)
  · exact c2_shell_nonzero_exit.2 envExitOne _ "a1" "npm test"
      "Process failed with exit code 1"
      { action := .shell "npm test", status := .running, executed := true,
        abortRaised := false }
      (by decide) (by decide) rfl

end ActionRunner

namespace ActionRunner

/-- Claim C7: a plain file action's handler never fails outward —
directory-creation or write failures are only logged — and the action
settles `complete` whenever its cancellation signal was not raised. -/
theorem c7_file_action_best_effort :
    (∀ (env : Env) (fs : FS) (filePath fileContent : String),
      (runHandler env fs (.file filePath fileContent)).1 = Except.ok ()) ∧
    (∀ (env : Env) (s : RunnerState) (id filePath fileContent : String) (r : ActionState),
      s.inFlight = some (id, .file filePath fileContent) →
      lookupKey s.actions id = some r →
      r.abortRaised = false →
      statusOf (applyStep env s .finish) id = some .complete) := by
  constructor
  · intro env fs filePath fileContent
    rfl
  · intro env s id filePath fileContent r hin hr hab
    have h := statusOf_finish_ok env s id (.file filePath fileContent) r hin hr rfl
    rwa [hab, if_neg Bool.false_ne_true] at h

/-- Witness for C7: under an environment in which both `mkdir` and
`writeFile` fail, the file action still settles `complete`, and the
filesystem is untouched (the write really did fail). -/
theorem c7_file_action_best_effort_witness :
    statusOf (applyStep envAllFail (runTrace envAllFail traceFilePrefix) .finish) "f1"
      = some .complete ∧
    (applyStep envAllFail (runTrace envAllFail traceFilePrefix) .finish).fs = emptyFS := by
  constructor
  · exact c7_file_action_best_effort.2 envAllFail _ "f1" "/home/project/src/a/b.txt" "hi"
      { action := .file "/home/project/src/a/b.txt" "hi", status := .running,
        executed := true, abortRaised := false }
      (by decide) (by decide) rfl
  · decide

end ActionRunner

namespace ActionRunner

theorem importFileOk_split (env : Env) (folder : String) (f : ImportFile)
    (h : importFileOk env folder f = true) :
    (dirname (folder ++ "/" ++ f.path) != "." &&
        env.mkdirFails (dirname (folder ++ "/" ++ f.path))) = false ∧
    env.writeFails (folder ++ "/" ++ f.path) = false := by
  constructor
  · cases h1 : (dirname (folder ++ "/" ++ f.path) != "." &&
        env.mkdirFails (dirname (folder ++ "/" ++ f.path)))
    · rfl
    · exfalso
      simp [importFileOk, h1] at h
  · cases h2 : env.writeFails (folder ++ "/" ++ f.path)
    · rfl
    · exfalso
      simp [importFileOk, h2] at h

/-- Importing one file that succeeds steps the loop with that file's
filesystem effect. -/
theorem importFiles_cons_ok (env : Env) (folder : String) (f : ImportFile)
    (rest : List ImportFile) (fs : FS) (hf : importFileOk env folder f = true) :
    importFiles env fs folder (f :: rest)
      = importFiles env (writeImportFile folder fs f) folder rest := by
  obtain ⟨h1, h2⟩ := importFileOk_split env folder f hf
  simp only [importFiles, writeImportFile, h1, h2]
  simp

/-- When every file write succeeds, the import-file loop succeeds and
applies every write. -/
theorem importFiles_ok (env : Env) (folder : String) :
    ∀ (files : List ImportFile) (fs : FS),
      (∀ f ∈ files, importFileOk env folder f = true) →
      importFiles env fs folder files = (writeImportFiles folder fs files, none) := by
  intro files
  induction files with
  | nil => intro fs _; rfl
  | cons f rest ih =>
    intro fs hok
    rw [importFiles_cons_ok env folder f rest fs (hok f (List.mem_cons_self f rest))]
    rw [ih (writeImportFile folder fs f) (fun g hg => hok g (List.mem_cons_of_mem f hg))]
    rfl

/-- When the first failing file is reached, the loop stops with that
file's error, keeping exactly the writes made before it. -/
theorem importFiles_fail (env : Env) (folder : String) (bad : ImportFile)
    (rest : List ImportFile) :
    ∀ (done : List ImportFile) (fs : FS),
      (∀ f ∈ done, importFileOk env folder f = true) →
      importFileOk env folder bad = false →
      importFiles env fs folder (done ++ bad :: rest)
        = (importFailState env folder (writeImportFiles folder fs done) bad,
           some (importFailMsg env folder bad)) := by
  intro done
  induction done with
  | nil =>
    intro fs _ hbad
    simp only [List.nil_append, writeImportFiles, List.foldl_nil]
    by_cases hA : (dirname (folder ++ "/" ++ bad.path) != "." &&
        env.mkdirFails (dirname (folder ++ "/" ++ bad.path))) = true
    · simp only [importFiles, importFailState, importFailMsg, hA]
      simp
    · have hA' := Bool.eq_false_iff.mpr hA
      have hB : env.writeFails (folder ++ "/" ++ bad.path) = true := by
        cases hB' : env.writeFails (folder ++ "/" ++ bad.path)
        · exfalso
          have : importFileOk env folder bad = true := by
            simp [importFileOk, hA', hB']
          rw [this] at hbad
          exact Bool.noConfusion hbad
        · rfl
      simp only [importFiles, importFailState, importFailMsg, hA', hB]
      simp
  | cons f done' ih =>
    intro fs hok hbad
    rw [List.cons_append,
      importFiles_cons_ok env folder f (done' ++ bad :: rest) fs
        (hok f (List.mem_cons_self f done')),
      ih (writeImportFile folder fs f) (fun g hg => hok g (List.mem_cons_of_mem f hg)) hbad]
    rfl

/-- When every command up to the first failing one exits zero, the
post-command loop spawns exactly those commands and stops at the failure. -/
theorem runPostCommands_fail (env : Env) (bad : String) (restCmds : List String)
    (hbad : env.shellExitCode bad ≠ 0) :
    ∀ good : List String,
      (∀ c ∈ good, env.shellExitCode c = 0) →
      runPostCommands env (good ++ bad :: restCmds)
        = (Except.error ("Post-import command failed: " ++ bad), good ++ [bad]) := by
  intro good
  induction good with
  | nil =>
    intro _
    have : (env.shellExitCode bad != 0) = true := by
      simpa [bne] using hbad
    simp [runPostCommands, this]
  | cons c good' ih =>
    intro hok
    have hc : env.shellExitCode c = 0 := hok c (List.mem_cons_self c good')
    have hcb : (env.shellExitCode c != 0) = false := by simp [bne, hc]
    simp only [List.cons_append, runPostCommands, hcb, List.append_eq,
      Bool.false_eq_true, if_false]
    rw [ih (fun d hd => hok d (List.mem_cons_of_mem c hd))]

end ActionRunner

namespace ActionRunner

/-- Claim C6: for an import action, (1) the first failing file write
fails the whole import, keeps the files already written, and spawns no
post-import command; (2) the first nonzero post-import command fails the
import, keeps all files written, and the remaining post-import commands
are not spawned; (3) an import handler error settles the action as
`failed` with that error. -/
theorem c6_import_failure_policy :
    (∀ (env : Env) (fs : FS) (targetPath : String) (done : List ImportFile)
        (bad : ImportFile) (rest : List ImportFile) (postCmds : List String),
      targetPath ≠ "" → targetPath ≠ "." →
      env.mkdirFails targetPath = false →
      (∀ f ∈ done, importFileOk env targetPath f = true) →
      importFileOk env targetPath bad = false →
      importRepository env fs targetPath (done ++ bad :: rest) postCmds
        = (Except.error (importFailMsg env targetPath bad),
           importFailState env targetPath
             (writeImportFiles targetPath (fsMkdir fs targetPath) done) bad,
           [])) ∧
    (∀ (env : Env) (fs : FS) (targetPath : String) (files : List ImportFile)
        (good : List String) (bad : String) (restCmds : List String),
      targetPath ≠ "" → targetPath ≠ "." →
      env.mkdirFails targetPath = false →
      (∀ f ∈ files, importFileOk env targetPath f = true) →
      (∀ c ∈ good, env.shellExitCode c = 0) →
      env.shellExitCode bad ≠ 0 →
      importRepository env fs targetPath files (good ++ bad :: restCmds)
        = (Except.error ("Post-import command failed: " ++ bad),
           writeImportFiles targetPath (fsMkdir fs targetPath) files,
           good ++ [bad])) ∧
    (∀ (env : Env) (s : RunnerState) (id targetPath : String)
        (files : List ImportFile) (postCmds : List String) (e : String) (r : ActionState),
      s.inFlight = some (id, .importRepo targetPath files postCmds) →
      lookupKey s.actions id = some r →
      (importRepository env s.fs targetPath files postCmds).1 = Except.error e →
      statusOf (applyStep env s .finish) id = some (.failed e)) := by
  refine ⟨?_, ?_, ?_⟩
  · intro env fs targetPath done bad rest postCmds hne hnd hm hok hbad
    have hbne : (targetPath != ".") = true := by simp [bne, hnd]
    simp only [importRepository, hne, if_false, ite_false, hbne, hm,
      Bool.and_false, Bool.false_eq_true, if_true, ite_true]
    rw [importFiles_fail env targetPath bad rest done (fsMkdir fs targetPath) hok hbad]
  · intro env fs targetPath files good bad restCmds hne hnd hm hok hcmd hbad
    have hbne : (targetPath != ".") = true := by simp [bne, hnd]
    simp only [importRepository, hne, if_false, ite_false, hbne, hm,
      Bool.and_false, Bool.false_eq_true, if_true, ite_true]
    rw [importFiles_ok env targetPath files (fsMkdir fs targetPath) hok]
    rw [runPostCommands_fail env bad restCmds hbad good hcmd]
  · intro env s id targetPath files postCmds e r hin hr he
    exact statusOf_finish_error env s id (.importRepo targetPath files postCmds) e r hin hr
      (by simpa [runHandler] using he)

end ActionRunner

namespace ActionRunner

/-- Witness for C6: importing `a.txt` then `sub/b.txt` under an
environment where `mkdir proj/sub` fails stops with that error while
`proj/a.txt` stays written, and a failing post-import command `"bad"`
stops the command list right there. -/
theorem c6_import_failure_policy_witness :
    importRepository envImportFail emptyFS "proj"
        ([⟨"a.txt", "A"⟩] ++ ⟨"sub/b.txt", "B"⟩ :: []) ["ls"]
      = (Except.error (importFailMsg envImportFail "proj" ⟨"sub/b.txt", "B"⟩),
         importFailState envImportFail "proj"
           (writeImportFiles "proj" (fsMkdir emptyFS "proj") [⟨"a.txt", "A"⟩])
           ⟨"sub/b.txt", "B"⟩,
         []) ∧
    lookupKey
      (importFailState envImportFail "proj"
        (writeImportFiles "proj" (fsMkdir emptyFS "proj") [⟨"a.txt", "A"⟩])
        ⟨"sub/b.txt", "B"⟩).files "proj/a.txt" = some "A" ∧
    importRepository envImportFail emptyFS "proj" [⟨"a.txt", "A"⟩] (["ok"] ++ "bad" :: ["after"])
      = (Except.error ("Post-import command failed: " ++ "bad"),
         writeImportFiles "proj" (fsMkdir emptyFS "proj") [⟨"a.txt", "A"⟩],
         ["ok"] ++ ["bad"]) := by
  refine ⟨?_, by decide, ?_⟩
  · exact c6_import_failure_policy.1 envImportFail emptyFS "proj" [⟨"a.txt", "A"⟩]
      ⟨"sub/b.txt", "B"⟩ [] ["ls"] (by decide) (by decide) rfl (by decide) (by decide)
  · exact c6_import_failure_policy.2.1 envImportFail emptyFS "proj" [⟨"a.txt", "A"⟩]
      ["ok"] "bad" ["after"] (by decide) (by decide) rfl (by decide) (by decide) (by decide)

end ActionRunner

namespace Workbench

open ActionRunner

/-- Claim C8: registering an artifact id that is already present is a
no-op — after two `addArtifact` calls with the same message id the state
is exactly the state after the first call (one runner instance, the
first registration's title, id and closed flag preserved), and a first
registration stores title, closed = false and a single fresh runner. -/
theorem c8_addArtifact_idempotent :
    (∀ (s : WorkbenchState) (m t aid t' aid' : String),
      addArtifact (addArtifact s m t aid) m t' aid' = addArtifact s m t aid) ∧
    (∀ (s : WorkbenchState) (m t aid : String),
      lookupKey s.artifacts m = none →
      lookupKey (addArtifact s m t aid).artifacts m
        = some { id := aid, title := t, closed := false, runnerId := s.nextRunnerId } ∧
      (addArtifact (addArtifact s m t aid) m t aid).nextRunnerId
        = s.nextRunnerId + 1) := by
  constructor
  · intro s m t aid t' aid'
    cases hl : lookupKey s.artifacts m with
    | some a => simp [addArtifact, hl]
    | none => simp [addArtifact, hl, lookupKey_setKey_self]
  · intro s m t aid hl
    constructor
    · simp [addArtifact, hl, lookupKey_setKey_self]
    · simp [addArtifact, hl, lookupKey_setKey_self]

/-- Witness for C8 at a concrete registration pair. -/
theorem c8_addArtifact_idempotent_witness :
    addArtifact (addArtifact initWorkbench "m1" "First" "art") "m1" "Second" "other"
      = addArtifact initWorkbench "m1" "First" "art" ∧
    lookupKey (addArtifact initWorkbench "m1" "First" "art").artifacts "m1"
      = some { id := "art", title := "First", closed := false, runnerId := 0 } := by
  constructor
  · exact c8_addArtifact_idempotent.1 initWorkbench "m1" "First" "art" "Second" "other"
  · exact (c8_addArtifact_idempotent.2 initWorkbench "m1" "First" "art" rfl).1

end Workbench

namespace ActionRunner

/-- Updating a status never changes presence or the `executed` flag. -/
theorem lookupKey_updateStatus_executed (m : List (String × ActionState))
    (x : String) (st : ActionStatus) (id : String) (r : ActionState)
    (h : lookupKey m id = some r) :
    ∃ r', lookupKey (updateStatus m x st) id = some r' ∧ r'.executed = r.executed := by
  by_cases hxy : id = x
  · subst hxy
    exact ⟨{ r with status := st }, lookupKey_updateStatus_self m id st r h, rfl⟩
  · exact ⟨r, by rw [lookupKey_updateStatus_ne m x id st hxy]; exact h, rfl⟩

theorem chainInv_init : ChainInv initState := by
  refine ⟨⟨[], rfl⟩, rfl, List.nodup_nil, ?_⟩
  intro id hid
  exact absurd hid (List.not_mem_nil id)

theorem chainInv_applyStep (env : Env) (s : RunnerState) (st : Step)
    (hInv : ChainInv s) : ChainInv (applyStep env s st) := by
  obtain ⟨⟨rest, happ⟩, h2, h3, h4⟩ := hInv
  cases st with
  | add actionId action =>
    simp only [applyStep]
    split
    · exact ⟨⟨rest, happ⟩, h2, h3, h4⟩
    · rename_i hl
      refine ⟨⟨rest, happ⟩, h2, h3, ?_⟩
      intro y hy
      obtain ⟨r, hr, hex⟩ := h4 y hy
      have hne : y ≠ actionId := by
        intro he
        subst he
        rw [hl] at hr
        exact Option.noConfusion hr
      exact ⟨r, by rw [lookupKey_setKey_ne _ _ _ _ hne]; exact hr, hex⟩
  | run actionId action =>
    simp only [applyStep]
    split
    · exact ⟨⟨rest, happ⟩, h2, h3, h4⟩
    · rename_i r hl
      split
      · exact ⟨⟨rest, happ⟩, h2, h3, h4⟩
      · rename_i hexne
        have hex : r.executed = false := by
          cases hrx : r.executed
          · rfl
          · exact absurd hrx hexne
        have hnotin : actionId ∉ s.appended := by
          intro hin
          obtain ⟨r', hr', hex'⟩ := h4 actionId hin
          rw [hl] at hr'
          have heq : r = r' := Option.some.inj hr'
          rw [← heq] at hex'
          rw [hex] at hex'
          exact Bool.noConfusion hex'
        refine ⟨⟨rest ++ [actionId], by rw [happ, List.append_assoc]⟩, h2, ?_, ?_⟩
        · simp [List.nodup_append, h3, hnotin]
        · intro y hy
          rcases List.mem_append.mp hy with hy' | hy'
          · obtain ⟨r', hr', hex'⟩ := h4 y hy'
            have hne : y ≠ actionId := fun he => hnotin (he ▸ hy')
            exact ⟨r', by rw [lookupKey_setKey_ne _ _ _ _ hne]; exact hr', hex'⟩
          · have heq : y = actionId := List.mem_singleton.mp hy'
            subst heq
            exact ⟨{ r with action := action, executed := true },
              lookupKey_setKey_self _ _ _, rfl⟩
  | abortAction actionId =>
    simp only [applyStep]
    split
    · exact ⟨⟨rest, happ⟩, h2, h3, h4⟩
    · rename_i r hl
      refine ⟨⟨rest, happ⟩, h2, h3, ?_⟩
      intro y hy
      obtain ⟨r', hr', hex'⟩ := h4 y hy
      by_cases hne : y = actionId
      · subst hne
        rw [hl] at hr'
        have heq : r = r' := Option.some.inj hr'
        subst heq
        exact ⟨{ r with abortRaised := true, status := .aborted },
          lookupKey_setKey_self _ _ _, hex'⟩
      · exact ⟨r', by rw [lookupKey_setKey_ne _ _ _ _ hne]; exact hr', hex'⟩
  | fireRunning =>
    simp only [applyStep]
    split
    · exact ⟨⟨rest, happ⟩, h2, h3, h4⟩
    · rename_i k actionId tl hp
      split
      · refine ⟨⟨rest, happ⟩, h2, h3, ?_⟩
        intro y hy
        obtain ⟨r, hr, hex⟩ := h4 y hy
        obtain ⟨r', hr', hexeq⟩ :=
          lookupKey_updateStatus_executed s.actions actionId .running y r hr
        exact ⟨r', hr', by rw [hexeq]; exact hex⟩
      · exact ⟨⟨rest, happ⟩, h2, h3, h4⟩
  | start =>
    simp only [applyStep]
    split
    · exact ⟨⟨rest, happ⟩, h2, h3, h4⟩
    · rename_i hml
      split
      · split
        · exact ⟨⟨rest, happ⟩, h2, h3, h4⟩
        · rename_i actionId tl hq
          split
          · exact ⟨⟨rest, happ⟩, h2, h3, h4⟩
          · rename_i r hl
            have hrest : rest = actionId :: tl := by
              have hcq : chainQueue s = rest := by
                simp only [chainQueue, happ]
                exact List.drop_left s.started rest
              rw [hcq] at hq
              exact hq
            refine ⟨⟨tl, ?_⟩, ?_, h3, ?_⟩
            · show s.appended = (s.started ++ [actionId]) ++ tl
              rw [happ, hrest, List.append_assoc]
              rfl
            · show s.started ++ [actionId] = s.settled ++ inFlightList _
              have h2' : s.started = s.settled := by
                rw [h2]
                simp [inFlightList, hml]
              rw [h2']
              rfl
            · intro y hy
              obtain ⟨rr, hrr, hexr⟩ := h4 y hy
              obtain ⟨r', hr', hexeq⟩ :=
                lookupKey_updateStatus_executed s.actions actionId .running y rr hrr
              exact ⟨r', hr', by rw [hexeq]; exact hexr⟩
      · exact ⟨⟨rest, happ⟩, h2, h3, h4⟩
  | finish =>
    simp only [applyStep]
    split
    · exact ⟨⟨rest, happ⟩, h2, h3, h4⟩
    · rename_i p actionId act hml
      refine ⟨⟨rest, happ⟩, ?_, h3, ?_⟩
      · show s.started = (s.settled ++ [actionId]) ++ inFlightList _
        rw [h2]
        simp [inFlightList, hml]
      · intro y hy
        obtain ⟨rr, hrr, hexr⟩ := h4 y hy
        obtain ⟨r', hr', hexeq⟩ :=
          lookupKey_updateStatus_executed s.actions actionId _ y rr hrr
        exact ⟨r', hr', by rw [hexeq]; exact hexr⟩

theorem chainInv_runTrace (env : Env) (steps : List Step) :
    ChainInv (runTrace env steps) := by
  have hgen : ∀ (l : List Step) (s : RunnerState),
      ChainInv s → ChainInv (l.foldl (applyStep env) s) := by
    intro l
    induction l with
    | nil => intro s h; exact h
    | cons st tail ih =>
      intro s h
      exact ih _ (chainInv_applyStep env s st h)
  exact hgen steps initState chainInv_init

end ActionRunner

namespace ActionRunner

theorem nodup_get?_unique {α : Type} (l : List α) (h : l.Nodup) (i j : Nat) (a : α)
    (hi : l.get? i = some a) (hj : l.get? j = some a) : i = j := by
  obtain ⟨hi', hig⟩ := List.get?_eq_some.mp hi
  obtain ⟨hj', hjg⟩ := List.get?_eq_some.mp hj
  have heq : l.get ⟨i, hi'⟩ = l.get ⟨j, hj'⟩ := by rw [hig, hjg]
  have := (List.Nodup.get_inj_iff h).mp heq
  simpa using congrArg Fin.val this

/-- Claim C3: executions chained by `runAction` are serialized — when a
later-chained action `b` has started, every earlier-chained action `a`
has fully settled (so at most one handler is in flight, in chain order) —
and settling an execution, failed or not, clears the in-flight slot and
leaves the chain of queued actions intact, so a failure does not prevent
the next queued action from executing. -/
theorem c3_serialized_execution :
    (∀ (env : Env) (steps : List Step) (i j : Nat) (a b : String),
      i < j →
      (runTrace env steps).appended.get? i = some a →
      (runTrace env steps).appended.get? j = some b →
      b ∈ (runTrace env steps).started →
      a ∈ (runTrace env steps).settled) ∧
    (∀ (env : Env) (s : RunnerState) (p : String × BoltAction),
      s.inFlight = some p →
      (applyStep env s .finish).inFlight = none ∧
      (applyStep env s .finish).appended = s.appended ∧
      chainQueue (applyStep env s .finish) = chainQueue s) := by
  constructor
  · intro env steps i j a b hij ha hb hbst
    obtain ⟨⟨rest, happ⟩, h2, h3, _⟩ := chainInv_runTrace env steps
    set s := runTrace env steps
    obtain ⟨jb, hjb⟩ := List.mem_iff_get?.mp hbst
    have hjb' : jb < s.started.length := (List.get?_eq_some.mp hjb).1
    have hjbapp : s.appended.get? jb = some b := by
      rw [happ]
      rw [List.get?_append hjb']
      exact hjb
    have hjeq : j = jb := nodup_get?_unique s.appended h3 j jb b hb hjbapp
    have hj' : j < s.started.length := hjeq ▸ hjb'
    have hi' : i < s.started.length := lt_trans hij hj'
    have hast : s.started.get? i = some a := by
      rw [happ, List.get?_append hi'] at ha
      exact ha
    cases hfl : s.inFlight with
    | none =>
      have h2' : s.started = s.settled := by
        rw [h2]
        simp [inFlightList, hfl]
      rw [h2'] at hast
      exact List.get?_mem hast
    | some p =>
      have h2' : s.started = s.settled ++ [p.1] := by
        rw [h2]
        simp [inFlightList, hfl]
      have hlen : s.started.length = s.settled.length + 1 := by
        rw [h2']
        simp
      have hisett : i < s.settled.length := by
        omega
      have : s.settled.get? i = some a := by
        rw [h2', List.get?_append hisett] at hast
        exact hast
      exact List.get?_mem this
  · intro env s p hin
    refine ⟨?_, ?_, ?_⟩
    · simp only [applyStep]
      rw [hin]
    · simp only [applyStep]
      rw [hin]
    · simp only [chainQueue, applyStep]
      rw [hin]

/-- Witness for C3: on the two-action trace, the failing first action has
settled while the second has started, and the second action completes
even though the first failed. -/
theorem c3_serialized_execution_witness :
    "a" ∈ (runTrace envOk traceTwoActions).settled ∧
    statusOf (runTrace envOk traceTwoActions) "a"
      = some (.failed "Process failed with exit code 1") ∧
    statusOf (runTrace envOk traceTwoActions) "b" = some .complete := by
  refine ⟨?_, by decide, by decide⟩
  exact c3_serialized_execution.1 envOk traceTwoActions 0 1 "a" "b"
    (by decide) (by decide) (by decide) (by decide)

/-- Claim C4: calling `runAction` again for an id whose record is already
`executed` is a complete no-op — the whole runner state, chain included,
is unchanged — and no id is ever dispatched twice (the started list never
repeats an id). -/
theorem c4_runAction_idempotent :
    (∀ (env : Env) (s : RunnerState) (id : String) (a : BoltAction) (r : ActionState),
      lookupKey s.actions id = some r →
      r.executed = true →
      applyStep env s (.run id a) = s) ∧
    (∀ (env : Env) (steps : List Step), (runTrace env steps).started.Nodup) := by
  constructor
  · intro env s id a r hr hex
    simp only [applyStep]
    rw [hr]
    simp [hex]
  · intro env steps
    obtain ⟨⟨rest, happ⟩, _, h3, _⟩ := chainInv_runTrace env steps
    rw [happ] at h3
    exact h3.of_append_left

/-- Witness for C4: re-running the completed action of `traceShellDone`
leaves the state untouched; the two-action trace dispatched each id once. -/
theorem c4_runAction_idempotent_witness :
    applyStep envOk (runTrace envOk traceShellDone) (.run "a1" (.shell "echo hi"))
      = runTrace envOk traceShellDone ∧
    (runTrace envOk traceTwoActions).started.Nodup := by
  constructor
  · exact c4_runAction_idempotent.1 envOk _ "a1" (.shell "echo hi")
      { action := .shell "echo hi", status := .complete, executed := true,
        abortRaised := false }
      (by decide) rfl
  · exact c4_runAction_idempotent.2 envOk traceTwoActions

end ActionRunner

namespace ActionRunner

/-- Claim C10: every operation of the runner is keyed to one action id —
for any step, the records of all other ids are unchanged. -/
theorem c10_frame :
    ∀ (env : Env) (s : RunnerState) (st : Step) (y : String),
      y ≠ stepTarget s st →
      lookupKey (applyStep env s st).actions y = lookupKey s.actions y := by
  intro env s st y hy
  cases st with
  | add actionId action =>
    simp only [stepTarget] at hy
    simp only [applyStep]
    split
    · rfl
    · exact lookupKey_setKey_ne _ _ _ _ hy
  | run actionId action =>
    simp only [stepTarget] at hy
    simp only [applyStep]
    split
    · rfl
    · split
      · rfl
      · exact lookupKey_setKey_ne _ _ _ _ hy
  | abortAction actionId =>
    simp only [stepTarget] at hy
    simp only [applyStep]
    split
    · rfl
    · exact lookupKey_setKey_ne _ _ _ _ hy
  | fireRunning =>
    simp only [applyStep]
    split
    · rfl
    · rename_i k actionId tl hp
      simp only [stepTarget, hp] at hy
      split
      · exact lookupKey_updateStatus_ne _ _ _ _ hy
      · rfl
  | start =>
    simp only [applyStep]
    split
    · rfl
    · split
      · split
        · rfl
        · rename_i actionId tl hq
          simp only [stepTarget, hq] at hy
          split
          · rfl
          · exact lookupKey_updateStatus_ne _ _ _ _ hy
      · rfl
  | finish =>
    simp only [applyStep]
    split
    · rfl
    · rename_i p actionId act hml
      simp only [stepTarget, hml] at hy
      exact lookupKey_updateStatus_ne _ _ _ _ hy

/-- Witness for C10: aborting action `"a"` leaves action `"b"`'s record
unchanged. -/
theorem c10_frame_witness :
    lookupKey (applyStep envOk (runTrace envOk traceTwoActions)
        (.abortAction "a")).actions "b"
      = lookupKey (runTrace envOk traceTwoActions).actions "b" :=
  c10_frame envOk _ (.abortAction "a") "b" (by decide)

end ActionRunner

namespace ActionRunner

/-- Claim C9: aborting an action while it is still pending does not
prevent its execution.  After `add` then `abort`, the record is
`aborted`; the scheduled running-update and the dispatch still set it
`running` (`executed` was still false, so `runAction` chains the
execution); the handler runs in full (its filesystem effect is applied);
and on handler success the settlement records `aborted`, because the
cancellation signal is already raised. -/
theorem c9_abort_before_run (env : Env) (id : String) (a : BoltAction) (fs' : FS)
    (h : runHandler env emptyFS a = (Except.ok (), fs')) :
    statusOf (runTrace env [.add id a, .abortAction id]) id = some .aborted ∧
    statusOf (runTrace env
        [.add id a, .abortAction id, .fireRunning, .run id a, .start]) id
      = some .running ∧
    statusOf (runTrace env
        [.add id a, .abortAction id, .fireRunning, .run id a, .start, .finish]) id
      = some .aborted ∧
    (runTrace env
        [.add id a, .abortAction id, .fireRunning, .run id a, .start, .finish]).fs = fs' ∧
    (lookupKey (runTrace env
        [.add id a, .abortAction id, .fireRunning, .run id a, .start, .finish]).actions id).map
        ActionState.executed = some true ∧
    (runTrace env
        [.add id a, .abortAction id, .fireRunning, .run id a, .start, .finish]).settled
      = [id] := by
  refine ⟨?_, ?_, ?_, ?_, ?_, ?_⟩ <;>
    simp [runTrace, applyStep, lookupKey, setKey, updateStatus, chainQueue,
      noDueRunningUpdate, statusOf, initState, h]

/-- Witness for C9 with a concrete file action: the aborted-then-run
action ends `aborted` while its file write landed. -/
theorem c9_abort_before_run_witness :
    statusOf (runTrace envOk
        [.add "c1" (.file "w.txt" "v"), .abortAction "c1", .fireRunning,
         .run "c1" (.file "w.txt" "v"), .start, .finish]) "c1" = some .aborted ∧
    (runTrace envOk
        [.add "c1" (.file "w.txt" "v"), .abortAction "c1", .fireRunning,
         .run "c1" (.file "w.txt" "v"), .start, .finish]).fs
      = ⟨[], [("w.txt", "v")]⟩ := by
  have h := c9_abort_before_run envOk "c1" (.file "w.txt" "v") ⟨[], [("w.txt", "v")]⟩ rfl
  exact ⟨h.2.2.1, h.2.2.2.1⟩

end ActionRunner

namespace ActionRunner

/-- Claim C5 counterexample: after `add` and `run` of a failing shell
action, the promise returned by `runAction` has already settled with
success (`runActionResult` is `ok`) while the execution has not settled
at all (nothing settled, status still `pending`), and the later handler
failure is recorded in the store but never reaches that handle. -/
theorem c5_counterexample :
    runActionResult
        (runTrace envOk [.add "a5" (.shell "false"), .run "a5" (.shell "false")]) "a5"
      = Except.ok () ∧
    (runTrace envOk [.add "a5" (.shell "false"), .run "a5" (.shell "false")]).settled
      = [] ∧
    statusOf (runTrace envOk [.add "a5" (.shell "false"), .run "a5" (.shell "false")]) "a5"
      = some .pending ∧
    statusOf (runTrace envOk
        [.add "a5" (.shell "false"), .run "a5" (.shell "false"),
         .fireRunning, .start, .finish]) "a5"
      = some (.failed "Process failed with exit code 1") := by
  refine ⟨rfl, by decide, by decide, by decide⟩

/-- Claim C5 (amended): the handle returned by `runAction` settles as
soon as the synchronous body returns — successfully whenever the record
exists (even when the chained execution later fails), with the
`unreachable` error only for an unknown id — and at that moment the
newly chained execution has not settled. -/
theorem c5_run_handle :
    (∀ (s : RunnerState) (id : String) (r : ActionState),
      lookupKey s.actions id = some r →
      runActionResult s id = Except.ok ()) ∧
    (∀ (s : RunnerState) (id : String),
      lookupKey s.actions id = none →
      runActionResult s id = Except.error ("Action " ++ id ++ " not found")) ∧
    (∀ (env : Env) (s : RunnerState) (id : String) (a : BoltAction) (r : ActionState),
      lookupKey s.actions id = some r →
      r.executed = false →
      id ∉ s.settled →
      runActionResult (applyStep env s (.run id a)) id = Except.ok () ∧
      id ∉ (applyStep env s (.run id a)).settled) := by
  refine ⟨?_, ?_, ?_⟩
  · intro s id r hr
    simp [runActionResult, hr]
  · intro s id hr
    simp [runActionResult, hr]
  · intro env s id a r hr hex hsett
    have hstate : applyStep env s (.run id a)
        = { s with
            actions := setKey s.actions id { r with action := a, executed := true },
            appended := s.appended ++ [id] } := by
      simp only [applyStep]
      rw [hr]
      simp [hex]
    rw [hstate]
    constructor
    · simp [runActionResult, lookupKey_setKey_self]
    · exact hsett

/-- Witness for the amended C5 at a concrete pending action. -/
theorem c5_run_handle_witness :
    runActionResult
        (applyStep envOk (runTrace envOk [.add "a5" (.shell "false")])
          (.run "a5" (.shell "false"))) "a5" = Except.ok () ∧
    "a5" ∉ (applyStep envOk (runTrace envOk [.add "a5" (.shell "false")])
        (.run "a5" (.shell "false"))).settled :=
  c5_run_handle.2.2 envOk _ "a5" (.shell "false")
    { action := .shell "false", status := .pending, executed := false,
      abortRaised := false }
    (by decide) rfl (by decide)

/-- Claim C1 counterexample: a completed action (terminal status
`complete`) is moved to `aborted` by a later `abort` call — a terminal
state is left. -/
theorem c1_counterexample :
    statusOf (runTrace envOk traceShellDone) "a1" = some .complete ∧
    isTerminal .complete = true ∧
    statusOf (applyStep envOk (runTrace envOk traceShellDone) (.abortAction "a1")) "a1"
      = some .aborted := by
  refine ⟨by decide, rfl, by decide⟩

end ActionRunner

namespace ActionRunner

/-- Claim C1 (amended): each operation writes statuses as follows, and
nothing else — `addAction` creates `pending` for a new id; the scheduled
running-update and the execution dispatch write `running` regardless of
the current status (so an early-aborted record can revert to `running`);
`abort` writes `aborted` regardless of the current status (so a
`complete` or `failed` record can move to `aborted`); and the settlement
of an execution writes `complete`, `aborted` or `failed` (so a mid-run
abort can be overwritten by `failed`).  On undisturbed runs this is
exactly `pending → running → {complete, aborted, failed}`, but terminal
states are not absorbing. -/
theorem c1_status_discipline :
    ∀ (env : Env) (s : RunnerState) (st : Step) (y : String),
      statusOf (applyStep env s st) y = statusOf s y ∨
      (∃ a, st = .add y a ∧ statusOf s y = none ∧
        statusOf (applyStep env s st) y = some .pending) ∨
      (st = .abortAction y ∧ statusOf (applyStep env s st) y = some .aborted) ∨
      ((st = .fireRunning ∨ st = .start) ∧
        statusOf (applyStep env s st) y = some .running) ∨
      (st = .finish ∧
        (statusOf (applyStep env s st) y = some .complete ∨
         statusOf (applyStep env s st) y = some .aborted ∨
         ∃ e, statusOf (applyStep env s st) y = some (.failed e))) := by
  intro env s st y
  cases st with
  | add actionId action =>
    simp only [applyStep]
    split
    · left; rfl
    · rename_i hl
      by_cases hy : y = actionId
      · subst hy
        right; left
        exact ⟨action, rfl, by simp [statusOf, hl],
          by simp [statusOf, lookupKey_setKey_self]⟩
      · left
        simp [statusOf, lookupKey_setKey_ne _ _ _ _ hy]
  | run actionId action =>
    simp only [applyStep]
    split
    · left; rfl
    · rename_i r hl
      split
      · left; rfl
      · by_cases hy : y = actionId
        · subst hy
          left
          simp [statusOf, lookupKey_setKey_self, hl]
        · left
          simp [statusOf, lookupKey_setKey_ne _ _ _ _ hy]
  | abortAction actionId =>
    simp only [applyStep]
    split
    · left; rfl
    · rename_i r hl
      by_cases hy : y = actionId
      · subst hy
        right; right; left
        exact ⟨rfl, by simp [statusOf, lookupKey_setKey_self]⟩
      · left
        simp [statusOf, lookupKey_setKey_ne _ _ _ _ hy]
  | fireRunning =>
    simp only [applyStep]
    split
    · left; rfl
    · rename_i k actionId tl hp
      split
      · by_cases hy : y = actionId
        · subst hy
          cases hl : lookupKey s.actions y with
          | none =>
            left
            simp [statusOf, updateStatus, hl]
          | some r =>
            right; right; right; left
            exact ⟨Or.inl trivial,
              by simp [statusOf, lookupKey_updateStatus_self _ _ _ r hl]⟩
        · left
          simp [statusOf, lookupKey_updateStatus_ne _ _ _ _ hy]
      · left; rfl
  | start =>
    simp only [applyStep]
    split
    · left; rfl
    · split
      · split
        · left; rfl
        · rename_i actionId tl hq
          split
          · left; rfl
          · rename_i r hl
            by_cases hy : y = actionId
            · subst hy
              right; right; right; left
              exact ⟨Or.inr trivial,
                by simp [statusOf, lookupKey_updateStatus_self _ _ _ r hl]⟩
            · left
              simp [statusOf, lookupKey_updateStatus_ne _ _ _ _ hy]
      · left; rfl
  | finish =>
    simp only [applyStep]
    split
    · left; rfl
    · rename_i p actionId act hml
      by_cases hy : y = actionId
      · subst hy
        cases hl : lookupKey s.actions y with
        | none =>
          left
          simp [statusOf, updateStatus, hl]
        | some rr =>
          right; right; right; right
          refine ⟨trivial, ?_⟩
          cases hres : (runHandler env s.fs act).1 with
          | error e =>
            right; right
            exact ⟨e, by simp [statusOf, hres, lookupKey_updateStatus_self _ _ _ rr hl]⟩
          | ok u =>
            cases hab : rr.abortRaised
            · left
              simp [statusOf, hres, hl, hab, lookupKey_updateStatus_self _ _ _ rr hl]
            · right; left
              simp [statusOf, hres, hl, hab, lookupKey_updateStatus_self _ _ _ rr hl]
      · left
        simp [statusOf, lookupKey_updateStatus_ne _ _ _ _ hy]

end ActionRunner
